import Mathlib

/-!
Shallow embedding of the iterated-local-search optimization engine
(crate local-search: src/local_search.rs and src/iterated_local_search.rs).

Modelling conventions:
* Machine integers (u64, usize) are modelled as Nat; none of the modelled
  code paths can overflow in any scenario considered here.
* Rust BTreeSet<ScoredSolution> is modelled as a Lean list kept sorted in
  ascending derived (lexicographic) order; iter().next() is head?, and
  iter().next_back() is getLast?.
* Rust VecDeque is modelled as a list whose head is the front of the deque;
  push_front is cons, the back is the last element.
* Rust HashSet<Solution> is modelled as a list with set semantics (insert is
  List.insert, remove is List.erase, contains is membership).  Only
  membership is ever consulted by the engine, which is what the
  permutation-invariance (determinism) theorems below make precise.
* The random number generator is modelled as a pure stream of naturals with
  a cursor; rand draws consume one stream element.
* Panicking operations (unwrap on None) are modelled with Option, where
  none is the panic.
-/

namespace LocalSearchModel

/-- ScoredSolution from src/local_search.rs: a pair of a score and a
solution.  Field order (score first) matters because the Rust derives of
PartialOrd and Ord are lexicographic in declaration order. -/
structure ScoredSolution (γ σ : Type) where
  score : γ
  solution : σ
deriving DecidableEq

/-- The derived Ord instance of ScoredSolution: lexicographic on
(score, solution), score first. -/
instance (γ σ : Type) [LinearOrder γ] [LinearOrder σ] :
    LinearOrder (ScoredSolution γ σ) :=
  LinearOrder.lift' (fun x => toLex (x.score, x.solution)) (fun a b h => by
    cases a
    cases b
    simpa [toLex, Prod.ext_iff] using h)

/-- The derived Hash instance of ScoredSolution feeds both fields to the
hasher; we model the combination with the injective pairing function. -/
def scoredSolutionHash {γ σ : Type} (hashScore : γ → Nat) (hashSolution : σ → Nat)
    (x : ScoredSolution γ σ) : Nat :=
  Nat.pair (hashScore x.score) (hashSolution x.solution)

/-- ScoredSolutionAndIterationAdded from src/local_search.rs (an entry of
the recent deque): a scored solution together with the iteration counter
value at which it entered the deque. -/
structure ScoredSolutionAndIterationAdded (γ σ : Type) where
  scored_solution : ScoredSolution γ σ
  iteration : Nat
deriving DecidableEq

/-- History from src/local_search.rs.  best_solutions is the BTreeSet of
best scored solutions (ascending lexicographic list), all_solutions the
recent VecDeque (head is the front), all_solutions_lookup the HashSet of
solutions present in the deque (as a set-semantics list). -/
structure History (γ σ : Type) where
  best_solutions : List (ScoredSolution γ σ)
  best_solutions_capacity : Nat
  all_solutions : List (ScoredSolutionAndIterationAdded γ σ)
  all_solutions_capacity : Nat
  all_solutions_lookup : List σ
  all_solution_iteration_expiry : Nat
  iteration_count : Nat
deriving DecidableEq

namespace History

/-- History::new. -/
def new (γ σ : Type) (best_solutions_capacity all_solutions_capacity : Nat)
    (all_solution_iteration_expiry : Nat) : History γ σ :=
  { best_solutions := []
    best_solutions_capacity := best_solutions_capacity
    all_solutions := []
    all_solutions_capacity := all_solutions_capacity
    all_solutions_lookup := []
    all_solution_iteration_expiry := all_solution_iteration_expiry
    iteration_count := 0 }

variable {γ σ : Type} [LinearOrder γ] [LinearOrder σ]

/-- Loop body of History::_pop_solution_for_age, acting on the reversed
deque (head of the argument list is the back of the deque).  The Rust loop
pops the back entry and removes its solution from the lookup set while the
back entry satisfies iteration + all_solution_iteration_expiry >=
iteration_count, and stops at the first entry that does not. -/
def popAgeAux (cnt expiry : Nat) :
    List (ScoredSolutionAndIterationAdded γ σ) → List σ →
      List (ScoredSolutionAndIterationAdded γ σ) × List σ
  | [], lookup => ([], lookup)
  | e :: rest, lookup =>
    if cnt ≤ e.iteration + expiry then
      popAgeAux cnt expiry rest (lookup.erase e.scored_solution.solution)
    else
      (e :: rest, lookup)

/-- History::_pop_solution_for_age. -/
def _pop_solution_for_age (h : History γ σ) : History γ σ :=
  let p := popAgeAux h.iteration_count h.all_solution_iteration_expiry
    h.all_solutions.reverse h.all_solutions_lookup
  { h with all_solutions := p.1.reverse, all_solutions_lookup := p.2 }

/-- Loop body of History::_pop_solution_for_size, acting on the reversed
deque (head of the argument list is the back of the deque).  The Rust loop
pops the back entry and removes its solution from the lookup set while the
deque length is strictly greater than all_solutions_capacity. -/
def popSizeAux (cap : Nat) :
    List (ScoredSolutionAndIterationAdded γ σ) → List σ →
      List (ScoredSolutionAndIterationAdded γ σ) × List σ
  | [], lookup => ([], lookup)
  | e :: rest, lookup =>
    if cap < (e :: rest).length then
      popSizeAux cap rest (lookup.erase e.scored_solution.solution)
    else
      (e :: rest, lookup)

/-- History::_pop_solution_for_size. -/
def _pop_solution_for_size (h : History γ σ) : History γ σ :=
  let p := popSizeAux h.all_solutions_capacity h.all_solutions.reverse
    h.all_solutions_lookup
  { h with all_solutions := p.1.reverse, all_solutions_lookup := p.2 }

/-- History::_add_solution: size-expire, push the entry to the front of the
deque tagged with the current iteration counter, insert the solution in the
lookup set. -/
def _add_solution (h : History γ σ) (solution : ScoredSolution γ σ) : History γ σ :=
  let h := h._pop_solution_for_size
  { h with
    all_solutions :=
      ⟨solution, h.iteration_count⟩ :: h.all_solutions
    all_solutions_lookup := h.all_solutions_lookup.insert solution.solution }

/-- History::seen_solution: bump the iteration counter, age-expire, then
add the solution unless its underlying solution is already in the lookup
set. -/
def seen_solution (h : History γ σ) (solution : ScoredSolution γ σ) : History γ σ :=
  let h := { h with iteration_count := h.iteration_count + 1 }
  let h := h._pop_solution_for_age
  if solution.solution ∈ h.all_solutions_lookup then h
  else h._add_solution solution

/-- History::is_solution_tabu: membership in the lookup set. -/
def is_solution_tabu (h : History γ σ) (solution : σ) : Bool :=
  solution ∈ h.all_solutions_lookup

end History

/-- BTreeSet::insert on a sorted-ascending-list model of a BTreeSet: no-op
when the element is already present, otherwise ordered insertion. -/
def btreeInsert {α : Type} [LinearOrder α] (x : α) (l : List α) : List α :=
  if x ∈ l then l else l.orderedInsert (· ≤ ·) x

namespace History

variable {γ σ : Type} [LinearOrder γ] [LinearOrder σ]

/-- History::local_search_chose_solution.  Returns none when the Rust code
panics: with the best set at (zero) capacity and empty, the
iter().next_back().unwrap() fails. -/
def local_search_chose_solution (h : History γ σ) (solution : ScoredSolution γ σ) :
    Option (History γ σ) :=
  if h.best_solutions.length < h.best_solutions_capacity then
    some { h with best_solutions := btreeInsert solution h.best_solutions }
  else
    match h.best_solutions.getLast? with
    | none => none
    | some worst_solution =>
      if solution.score ≤ worst_solution.score then
        let remaining := h.best_solutions.erase worst_solution
        some { h with best_solutions := btreeInsert solution remaining }
      else
        some h

/-- History::get_best: the minimum of the best set (BTreeSet iter().next()),
none when the set is empty. -/
def get_best (h : History γ σ) : Option (ScoredSolution γ σ) :=
  h.best_solutions.head?

/-- History::get_best_multiple. -/
def get_best_multiple (h : History γ σ) (number_to_get : Nat) :
    Option (List (ScoredSolution γ σ)) :=
  if h.best_solutions.isEmpty then none
  else some (h.best_solutions.take number_to_get)

end History

/-- A pure model of rand::Rng: an infinite stream of naturals with a
cursor.  Each bounded draw consumes one stream element. -/
structure Rng where
  seq : Nat → Nat
  idx : Nat

/-- Draw a value uniformly below n (n positive in every use), advancing the
cursor. -/
def Rng.draw (r : Rng) (n : Nat) : Nat × Rng :=
  (r.seq r.idx % n, ⟨r.seq, r.idx + 1⟩)

/-- History::get_random_best_solution: none when the best set is empty
(without consuming randomness); otherwise the BTreeSet is collected in
ascending order into a vector and SliceRandom::choose picks a uniform
index. -/
def History.get_random_best_solution {γ σ : Type} (h : History γ σ) (rng : Rng) :
    Option (ScoredSolution γ σ) × Rng :=
  if h.best_solutions.isEmpty then (none, rng)
  else
    let p := rng.draw h.best_solutions.length
    (h.best_solutions.get? p.1, p.2)

/-- The host-implemented capabilities consumed by the engine:
Score::is_best, SolutionScoreCalculator::get_scored_solution,
MoveProposer::iter_local_moves (modelled as producing its finite sequence
eagerly), InitialSolutionGenerator::generate_initial_solution and
Perturbation::propose_new_starting_solution. -/
structure Host (γ σ : Type) where
  is_best : γ → Bool
  get_scored_solution : σ → ScoredSolution γ σ
  iter_local_moves : σ → Rng → List σ × Rng
  generate_initial_solution : Rng → σ × Rng
  propose_new_starting_solution :
    ScoredSolution γ σ → History γ σ → Rng → σ × Rng

variable {γ σ : Type}

/-- Mutable state owned by a LocalSearch value: its private History and its
RNG. -/
structure LocalSearchState (γ σ : Type) where
  history : History γ σ
  rng : Rng

section LocalSearch

variable [LinearOrder γ] [LinearOrder σ]

/-- One neighborhood scan of LocalSearch::execute: propose moves from the
current solution, filter out tabu solutions, score, truncate to
window_size, sort (ascending derived order) and keep the sorted vector. -/
def lsNeighborhood (host : Host γ σ) (window : Nat) (h : History γ σ)
    (current : σ) (rng : Rng) : List (ScoredSolution γ σ) × Rng :=
  let p := host.iter_local_moves current rng
  let candidates :=
    ((p.1.filter (fun s => !h.is_solution_tabu s)).map
      host.get_scored_solution).take window
  (candidates.insertionSort (· ≤ ·), p.2)

/-- The iteration loop of LocalSearch::execute, with the remaining
iteration budget as fuel.  Returns the emitted scored solution together
with the LocalSearch state after the call. -/
def lsLoop (host : Host γ σ) (window allow_no_improvement_for : Nat) :
    Nat → ScoredSolution γ σ → ScoredSolution γ σ → Nat →
      LocalSearchState γ σ → ScoredSolution γ σ × LocalSearchState γ σ
  | 0, _, best, _, st => (best, st)
  | fuel + 1, current, best, no_improvement_for, st =>
    let hist := st.history.seen_solution current
    if host.is_best current.score then (current, ⟨hist, st.rng⟩)
    else
      let p := lsNeighborhood host window hist current.solution st.rng
      match p.1.head? with
      | none => (best, ⟨hist, p.2⟩)
      | some neighborhood_best =>
        if neighborhood_best.score < current.score then
          lsLoop host window allow_no_improvement_for fuel
            neighborhood_best neighborhood_best 0 ⟨hist, p.2⟩
        else if allow_no_improvement_for ≤ no_improvement_for + 1 then
          (best, ⟨hist, p.2⟩)
        else
          lsLoop host window allow_no_improvement_for fuel
            neighborhood_best best (no_improvement_for + 1) ⟨hist, p.2⟩

/-- LocalSearch::execute from src/local_search.rs: score the start, then
iterate at most max_iterations times; each iteration records the current
solution in the history, stops if its score is best, otherwise moves to
the minimum of the (tabu-filtered, windowed) neighborhood, tracking
best_solution and the consecutive no-improvement count. -/
def LocalSearch.execute (host : Host γ σ) (window max_iterations : Nat)
    (st : LocalSearchState γ σ) (start : σ) (allow_no_improvement_for : Nat) :
    ScoredSolution γ σ × LocalSearchState γ σ :=
  let current := host.get_scored_solution start
  lsLoop host window allow_no_improvement_for max_iterations current current 0 st

end LocalSearch

/-- rand choose_weighted: walk the items, subtracting weights from the
drawn value until it falls inside an item's weight. -/
def pickByWeight {α : Type} : List (α × Nat) → Nat → Option α
  | [], _ => none
  | (x, w) :: rest, u => if u < w then some x else pickByWeight rest (u - w)

/-- rand choose_weighted on a list of (item, weight): draws uniformly below
the total weight and selects by cumulative weight; none when the total
weight is zero (the rand crate returns an error there). -/
def chooseWeighted {α : Type} (l : List (α × Nat)) (rng : Rng) : Option α × Rng :=
  let total := (l.map (fun x => x.2)).sum
  if total = 0 then (none, rng)
  else
    let p := rng.draw total
    (pickByWeight l p.1, p.2)

/-- AcceptanceCriterion::choose from src/iterated_local_search.rs: draw one
random best-set member from the history; the weighted menu is
(existing, 1), (new, 5) and, when the draw produced one, (member, 1); the
final unwrap of choose_weighted is modelled by Option (none is the
panic). -/
def AcceptanceCriterion.choose {γ σ : Type}
    (existing_local_minima new_local_minima : ScoredSolution γ σ)
    (history : History γ σ) (rng : Rng) : Option (ScoredSolution γ σ) × Rng :=
  let q := history.get_random_best_solution rng
  let choices :=
    match q.1 with
    | some random_best_solution =>
      [(existing_local_minima, 1), (new_local_minima, 5), (random_best_solution, 1)]
    | none => [(existing_local_minima, 1), (new_local_minima, 5)]
  chooseWeighted choices q.2

/-- IteratedLocalSearch state from src/iterated_local_search.rs: the outer
iteration counter and bounds, the accepted current solution, the ILS-owned
History, the embedded LocalSearch (its private History, its RNG, and its
configuration), and the ILS-owned RNG. -/
structure ILSState (γ σ : Type) where
  iteration : Nat
  max_iterations : Nat
  max_allow_no_improvement_for : Nat
  current : ScoredSolution γ σ
  history : History γ σ
  ls : LocalSearchState γ σ
  ls_window : Nat
  ls_max_iterations : Nat
  rng : Rng

/-- IteratedLocalSearch::new: score a freshly generated initial solution
into current (consuming the ILS RNG); nothing is inserted into the
History. -/
def IteratedLocalSearch.new (host : Host γ σ) (history : History γ σ)
    (ls : LocalSearchState γ σ) (ls_window ls_max_iterations : Nat)
    (max_iterations max_allow_no_improvement_for : Nat) (rng : Rng) :
    ILSState γ σ :=
  let p := host.generate_initial_solution rng
  { iteration := 0
    max_iterations := max_iterations
    max_allow_no_improvement_for := max_allow_no_improvement_for
    current := host.get_scored_solution p.1
    history := history
    ls := ls
    ls_window := ls_window
    ls_max_iterations := ls_max_iterations
    rng := p.2 }

/-- IteratedLocalSearch::is_finished: iteration >= max_iterations (and
nothing else). -/
def IteratedLocalSearch.is_finished (st : ILSState γ σ) : Bool :=
  st.max_iterations ≤ st.iteration

/-- IteratedLocalSearch::get_best_solution: history.get_best().unwrap(),
none being the panic on an empty best set. -/
def IteratedLocalSearch.get_best_solution (st : ILSState γ σ) :
    Option (ScoredSolution γ σ) :=
  st.history.get_best

section ILS

variable [LinearOrder γ] [LinearOrder σ]

/-- IteratedLocalSearch::execute_round: bump the iteration counter; stop
early when the best-ever score is best; every 50th round reset current from
a fresh initial solution; perturb, run the local search, record its result
in the best set, and accept one of existing/new/random-best as the next
current.  none models a panic (the unwrap in local_search_chose_solution or
in the acceptance criterion). -/
def IteratedLocalSearch.execute_round (host : Host γ σ) (st : ILSState γ σ) :
    Option (ILSState γ σ) :=
  let st := { st with iteration := st.iteration + 1 }
  let early :=
    match st.history.get_best with
    | some best => host.is_best best.score
    | none => false
  if early then some st
  else
    let st :=
      if 0 < st.iteration ∧ st.iteration % 50 = 0 then
        let p := host.generate_initial_solution st.rng
        { st with current := host.get_scored_solution p.1, rng := p.2 }
      else st
    let pp := host.propose_new_starting_solution st.current st.history st.rng
    let st := { st with rng := pp.2 }
    let q := LocalSearch.execute host st.ls_window st.ls_max_iterations st.ls
      pp.1 st.max_allow_no_improvement_for
    let st := { st with ls := q.2 }
    match st.history.local_search_chose_solution q.1 with
    | none => none
    | some history =>
      let st := { st with history := history }
      let r := AcceptanceCriterion.choose st.current q.1 st.history st.rng
      match r.1 with
      | none => none
      | some chosen => some { st with current := chosen, rng := r.2 }

end ILS

/-- Pointwise equivalence of History values up to the internal order of the
hash-based lookup container: every field is equal except that the lookup
lists need only be permutations of one another.  Two Rust histories whose
HashSet happens to lay out its elements differently are related by this. -/
def History.Equiv (h₁ h₂ : History γ σ) : Prop :=
  h₁.best_solutions = h₂.best_solutions ∧
  h₁.best_solutions_capacity = h₂.best_solutions_capacity ∧
  h₁.all_solutions = h₂.all_solutions ∧
  h₁.all_solutions_capacity = h₂.all_solutions_capacity ∧
  h₁.all_solutions_lookup.Perm h₂.all_solutions_lookup ∧
  h₁.all_solution_iteration_expiry = h₂.all_solution_iteration_expiry ∧
  h₁.iteration_count = h₂.iteration_count

/-- Pointwise equivalence of IteratedLocalSearch states up to the internal
order of the hash-based lookup containers of the two histories. -/
def ILSState.Equiv (s₁ s₂ : ILSState γ σ) : Prop :=
  s₁.iteration = s₂.iteration ∧
  s₁.max_iterations = s₂.max_iterations ∧
  s₁.max_allow_no_improvement_for = s₂.max_allow_no_improvement_for ∧
  s₁.current = s₂.current ∧
  History.Equiv s₁.history s₂.history ∧
  History.Equiv s₁.ls.history s₂.ls.history ∧
  s₁.ls.rng = s₂.ls.rng ∧
  s₁.ls_window = s₂.ls_window ∧
  s₁.ls_max_iterations = s₂.ls_max_iterations ∧
  s₁.rng = s₂.rng

/-- A host whose Perturbation only looks at the History through its public
API (best set, membership, counters), hence cannot distinguish equivalent
histories.  Rust hosts receive a shared reference whose only accessors are
such public methods, so every real host satisfies this. -/
def Host.PerturbationRespectsEquiv (host : Host γ σ) : Prop :=
  ∀ (c : ScoredSolution γ σ) (hA hB : History γ σ) (r : Rng),
    History.Equiv hA hB →
      host.propose_new_starting_solution c hA r =
        host.propose_new_starting_solution c hB r

/-- The all-zeros random stream, used by the concrete scenarios below. -/
def rngZero : Rng := ⟨fun _ => 0, 0⟩

/-- Concrete score function for the descent scenario: solution 0 scores 10,
solution 1 scores 12, solution 2 scores 11. -/
def scoreA (s : Nat) : Nat :=
  if s = 0 then 10 else if s = 1 then 12 else if s = 2 then 11 else 100

/-- Concrete neighborhoods for the descent scenario: 0 proposes 1, 1
proposes 2, 2 proposes nothing. -/
def movesA (s : Nat) : List Nat :=
  if s = 0 then [1] else if s = 1 then [2] else []

/-- Concrete host for the descent scenario (no score is ever best). -/
def hostA : Host Nat Nat :=
  { is_best := fun _ => false
    get_scored_solution := fun s => ⟨scoreA s, s⟩
    iter_local_moves := fun s r => (movesA s, r)
    generate_initial_solution := fun r => (0, r)
    propose_new_starting_solution := fun c _ r => (c.solution, r) }

/-- Fresh history for the descent scenario: best capacity 16, deque
capacity 100, expiry 100. -/
def histA : History Nat Nat := History.new Nat Nat 16 100 100

/-- Concrete host whose score 0 is the best possible score, with an empty
neighborhood everywhere. -/
def hostB : Host Nat Nat :=
  { is_best := fun g => g == 0
    get_scored_solution := fun s => ⟨100, s⟩
    iter_local_moves := fun _ r => ([], r)
    generate_initial_solution := fun r => (7, r)
    propose_new_starting_solution := fun c _ r => (c.solution, r) }

/-- Concrete ILS state whose history already holds a solution with the best
possible score (score 0), with 10 rounds allowed and none taken yet. -/
def stBest : ILSState Nat Nat :=
  { iteration := 0
    max_iterations := 10
    max_allow_no_improvement_for := 2
    current := ⟨5, 5⟩
    history :=
      { History.new Nat Nat 16 100 100 with best_solutions := [⟨0, 42⟩] }
    ls := ⟨History.new Nat Nat 16 100 100, rngZero⟩
    ls_window := 10
    ls_max_iterations := 10
    rng := rngZero }

/-- Concrete ILS state configured with best_solutions_capacity = 0. -/
def stCap0 : ILSState Nat Nat :=
  { iteration := 0
    max_iterations := 10
    max_allow_no_improvement_for := 2
    current := ⟨5, 5⟩
    history := History.new Nat Nat 0 10 10
    ls := ⟨History.new Nat Nat 16 100 100, rngZero⟩
    ls_window := 10
    ls_max_iterations := 10
    rng := rngZero }

/-- The driver loop used by the tests, examples and the web binding:
while !is_finished() { execute_round() }, here bounded by fuel (the loop
terminates in the source because execute_round always increments the
iteration counter).  none propagates a panic from a round. -/
def drive (host : Host γ σ) [LinearOrder γ] [LinearOrder σ] :
    Nat → ILSState γ σ → Option (ILSState γ σ)
  | 0, st => some st
  | fuel + 1, st =>
    if IteratedLocalSearch.is_finished st then some st
    else
      match IteratedLocalSearch.execute_round host st with
      | none => none
      | some st' => drive host fuel st'

/-- History carrying a given tabu lookup list (for the hash-order
insensitivity scenario). -/
def histP (lk : List Nat) : History Nat Nat :=
  { History.new Nat Nat 16 100 100 with all_solutions_lookup := lk }

/-- ILS state whose embedded LocalSearch history carries the given tabu
lookup list; two such states with permuted lists model two runs whose
HashSet laid its elements out differently. -/
def stP (lk : List Nat) : ILSState Nat Nat :=
  { iteration := 0
    max_iterations := 2
    max_allow_no_improvement_for := 2
    current := ⟨5, 5⟩
    history := History.new Nat Nat 16 100 100
    ls := ⟨histP lk, rngZero⟩
    ls_window := 10
    ls_max_iterations := 3
    rng := rngZero }

/-- Concrete history at best-set capacity 1 holding one scored solution,
for the admission-rule scenario. -/
def histC : History Nat Nat :=
  { History.new Nat Nat 1 10 10 with best_solutions := [⟨5, 0⟩] }

/-- histC after admitting the better solution (3, 9): the worst (and only)
member is evicted. -/
def histC' : History Nat Nat :=
  { histC with best_solutions := [⟨3, 9⟩] }

/-! Theorems. -/

section Theorems

variable {γ σ : Type} [LinearOrder γ] [LinearOrder σ]

/-- The derived (lexicographic) strict order of ScoredSolution, spelled
out: score first, then solution. -/
theorem ScoredSolution.lt_iff (a b : ScoredSolution γ σ) :
    a < b ↔ a.score < b.score ∨ (a.score = b.score ∧ a.solution < b.solution) :=
  Prod.Lex.lt_iff (a.score, a.solution) (b.score, b.solution)

/-- The derived (lexicographic) order of ScoredSolution, spelled out. -/
theorem ScoredSolution.le_iff (a b : ScoredSolution γ σ) :
    a ≤ b ↔ a.score < b.score ∨ (a.score = b.score ∧ a.solution ≤ b.solution) :=
  Prod.Lex.le_iff (a.score, a.solution) (b.score, b.solution)

/-- The lexicographic order refines the score order. -/
theorem ScoredSolution.score_le_of_le {a b : ScoredSolution γ σ} (h : a ≤ b) :
    a.score ≤ b.score := by
  rcases (ScoredSolution.le_iff a b).mp h with hlt | ⟨heq, _⟩
  · exact le_of_lt hlt
  · exact le_of_eq heq

/-- Claim C1.  LocalSearch::execute can return a scored solution strictly
worse than the starting solution: with the host hostA, starting from
solution 0 (score 10), the descent visits scores 10, 12, 11 and returns
score 11, because best_solution is only updated when a neighborhood best
improves on current (not on the best seen so far).  This contradicts the
spec's requirement that the result is the minimum score visited and at
most the starting score; the code is the slip (the variable is literally
named best_solution). -/
theorem c1_execute_can_worsen_code_bug :
    (hostA.get_scored_solution 0).score = 10 ∧
    (LocalSearch.execute hostA 10 10 ⟨histA, rngZero⟩ 0 2).1.score = 11 ∧
    ¬((LocalSearch.execute hostA 10 10 ⟨histA, rngZero⟩ 0 2).1.score ≤
        (hostA.get_scored_solution 0).score) := by
  decide

/-- Claim C2.  The age-expiry comparison in History::_pop_solution_for_age
is inverted: with all_solution_iteration_expiry = 2, a solution inserted at
iteration 1 is popped by the seen_solution call at iteration 2, even though
1 + 2 <= 2 is false (the entry is only 1 iteration old).  The code pops
entries that are still fresh and would keep genuinely expired ones, the
opposite of the claimed behavior. -/
theorem c2_age_expiry_code_bug :
    (((History.new Nat Nat 16 100 2).seen_solution ⟨10, 1⟩).all_solutions =
      [⟨⟨10, 1⟩, 1⟩]) ∧
    ((((History.new Nat Nat 16 100 2).seen_solution ⟨10, 1⟩).seen_solution
      ⟨10, 2⟩).all_solutions = [⟨⟨10, 2⟩, 2⟩]) ∧
    ((((History.new Nat Nat 16 100 2).seen_solution ⟨10, 1⟩).seen_solution
      ⟨10, 2⟩).iteration_count = 2) ∧
    ¬(1 + (History.new Nat Nat 16 100 2).all_solution_iteration_expiry ≤ 2) := by
  decide

/-- Claim C3, counterexample.  A state whose best-ever score is the best
possible score but whose iteration counter is below max_iterations: the
claim says is_finished() is true (and flips to true after the next
execute_round), yet the code returns false both before and after the
round, because is_finished only compares iteration against
max_iterations. -/
theorem c3_counterexample :
    stBest.history.get_best = some ⟨0, 42⟩ ∧
    hostB.is_best (0 : Nat) = true ∧
    IteratedLocalSearch.is_finished stBest = false ∧
    (IteratedLocalSearch.execute_round hostB stBest).map
      IteratedLocalSearch.is_finished = some false := by
  decide

/-- Claim C4, counterexample.  best_solutions_capacity = 0 is not safe:
History::local_search_chose_solution hits its unwrap (none) on an empty
best set at zero capacity, and hence a full IteratedLocalSearch round with
such a configuration panics rather than performing a no-op search. -/
theorem c4_counterexample :
    (History.new Nat Nat 0 10 10).local_search_chose_solution ⟨10, 1⟩ = none ∧
    (IteratedLocalSearch.execute_round hostB stCap0).isNone = true := by
  constructor
  · rfl
  · decide

/-- Claim C5, counterexample.  Two ScoredSolution values with the same
underlying solution but different scores are NOT equal (the derives compare
both fields), and the derived hash, fed both fields, separates them as
well; this contradicts the claimed solution-only equality/hash. -/
theorem c5_counterexample :
    ((⟨0, 5⟩ : ScoredSolution Nat Nat).solution =
      (⟨1, 5⟩ : ScoredSolution Nat Nat).solution) ∧
    (⟨0, 5⟩ : ScoredSolution Nat Nat) ≠ (⟨1, 5⟩ : ScoredSolution Nat Nat) ∧
    scoredSolutionHash id id (⟨0, 5⟩ : ScoredSolution Nat Nat) ≠
      scoredSolutionHash id id (⟨1, 5⟩ : ScoredSolution Nat Nat) := by
  refine ⟨rfl, by decide, by decide⟩

/-- Claim C5, amended.  ScoredSolution equality is componentwise (score and
solution both), and the ordering is lexicographic by score first with ties
broken by the solution order: a < b iff a.score < b.score, or the scores
are equal and a.solution < b.solution. -/
theorem c5_equality_and_order (a b : ScoredSolution γ σ) :
    (a = b ↔ a.score = b.score ∧ a.solution = b.solution) ∧
    (a < b ↔ a.score < b.score ∨ (a.score = b.score ∧ a.solution < b.solution)) := by
  constructor
  · cases a
    cases b
    simp [ScoredSolution.mk.injEq]
  · exact ScoredSolution.lt_iff a b

/-- Claim C6, counterexample.  With all_solutions_capacity = 1 (and expiry
0, so the inverted age check pops nothing here), two seen_solution calls
leave 2 entries in the deque: the size-expiry loop only pops while the
length strictly exceeds the capacity, so the deque settles at capacity + 1
entries, not at the claimed capacity. -/
theorem c6_counterexample :
    (((History.new Nat Nat 16 1 0).seen_solution ⟨10, 1⟩).seen_solution
      ⟨10, 2⟩).all_solutions.length = 2 ∧
    (History.new Nat Nat 16 1 0).all_solutions_capacity = 1 := by
  decide

/-- Claim C3, amended.  is_finished() is true iff iteration >=
max_iterations, and nothing else: when the best-ever score satisfies
is_best(), the next execute_round leaves everything except the iteration
counter unchanged (a no-op on the search state), and is_finished() becomes
true only once the incremented counter reaches max_iterations. -/
theorem c3_is_finished_only_counts_iterations (host : Host γ σ)
    (st : ILSState γ σ) (best : ScoredSolution γ σ)
    (hb : st.history.get_best = some best)
    (hbest : host.is_best best.score = true) :
    IteratedLocalSearch.execute_round host st =
      some { st with iteration := st.iteration + 1 } ∧
    (IteratedLocalSearch.is_finished { st with iteration := st.iteration + 1 } = true ↔
      st.max_iterations ≤ st.iteration + 1) := by
  constructor
  · unfold IteratedLocalSearch.execute_round
    simp [hb, hbest]
  · simp [IteratedLocalSearch.is_finished]

/-- Witness for c3_is_finished_only_counts_iterations at the concrete
state stBest with host hostB. -/
theorem c3_is_finished_witness :
    stBest.history.get_best = some ⟨0, 42⟩ ∧
    hostB.is_best (ScoredSolution.score ⟨0, 42⟩) = true ∧
    (IteratedLocalSearch.execute_round hostB stBest =
      some { stBest with iteration := stBest.iteration + 1 } ∧
    (IteratedLocalSearch.is_finished
        { stBest with iteration := stBest.iteration + 1 } = true ↔
      stBest.max_iterations ≤ stBest.iteration + 1)) :=
  ⟨by decide, by decide,
    c3_is_finished_only_counts_iterations hostB stBest ⟨0, 42⟩
      (by decide) (by decide)⟩

/-- Claim C4, amended.  Zero iteration limits are valid no-ops: with
max_iterations = 0, LocalSearch::execute returns the scored starting
solution and leaves the search state untouched.  But zero
best_solutions_capacity is not valid: local_search_chose_solution, reached
on every ILS round, panics (unwrap of None) because the full-capacity
branch reads the worst member of the empty best set. -/
theorem c4_zero_config (host : Host γ σ) (window : Nat)
    (st : LocalSearchState γ σ) (start : σ) (allow : Nat)
    (h : History γ σ) (s : ScoredSolution γ σ)
    (hemp : h.best_solutions = []) (hcap : h.best_solutions_capacity = 0) :
    LocalSearch.execute host window 0 st start allow =
      (host.get_scored_solution start, st) ∧
    h.local_search_chose_solution s = none := by
  constructor
  · rfl
  · unfold History.local_search_chose_solution
    rw [hemp, hcap]
    simp

/-- Witness for c4_zero_config at a concrete zero-capacity history. -/
theorem c4_zero_config_witness :
    (History.new Nat Nat 0 10 10).best_solutions = [] ∧
    (History.new Nat Nat 0 10 10).best_solutions_capacity = 0 ∧
    (LocalSearch.execute hostB 10 0 ⟨histA, rngZero⟩ 0 2 =
      (hostB.get_scored_solution 0, ⟨histA, rngZero⟩) ∧
    (History.new Nat Nat 0 10 10).local_search_chose_solution ⟨10, 1⟩ = none) :=
  ⟨rfl, rfl,
    c4_zero_config hostB 10 ⟨histA, rngZero⟩ 0 2 (History.new Nat Nat 0 10 10)
      ⟨10, 1⟩ rfl rfl⟩

set_option linter.unusedSectionVars false

/-- The age-expiry loop only removes entries from the deque. -/
theorem popAgeAux_length_le (cnt expiry : Nat)
    (l : List (ScoredSolutionAndIterationAdded γ σ)) (lk : List σ) :
    (History.popAgeAux cnt expiry l lk).1.length ≤ l.length := by
  induction l generalizing lk with
  | nil => simp [History.popAgeAux]
  | cons e rest ih =>
    unfold History.popAgeAux
    split
    · exact le_trans (ih _) (Nat.le_succ _)
    · exact le_refl _

/-- The size-expiry loop pops from the back exactly while the length
strictly exceeds the capacity: the result has length min (length, cap). -/
theorem popSizeAux_length (cap : Nat)
    (l : List (ScoredSolutionAndIterationAdded γ σ)) (lk : List σ) :
    (History.popSizeAux cap l lk).1.length = min l.length cap := by
  induction l generalizing lk with
  | nil => simp [History.popSizeAux]
  | cons e rest ih =>
    unfold History.popSizeAux
    split
    · next hlt =>
      rw [ih]
      simp only [List.length_cons] at hlt ⊢
      have h1 : min rest.length cap = cap := Nat.min_eq_right (by omega)
      have h2 : min (rest.length + 1) cap = cap := Nat.min_eq_right (by omega)
      rw [h1, h2]
    · next hge =>
      simp only [List.length_cons] at hge ⊢
      rw [Nat.min_eq_left (by omega)]

/-- History::_pop_solution_for_size leaves min (length, capacity) entries. -/
theorem pop_solution_for_size_length (h : History γ σ) :
    h._pop_solution_for_size.all_solutions.length =
      min h.all_solutions.length h.all_solutions_capacity := by
  unfold History._pop_solution_for_size
  simp [popSizeAux_length]

/-- History::_pop_solution_for_age does not grow the deque. -/
theorem pop_solution_for_age_length_le (h : History γ σ) :
    h._pop_solution_for_age.all_solutions.length ≤ h.all_solutions.length := by
  unfold History._pop_solution_for_age
  simpa using popAgeAux_length_le h.iteration_count
    h.all_solution_iteration_expiry h.all_solutions.reverse h.all_solutions_lookup

/-- BTreeSet insertion grows the set by at most one element. -/
theorem btreeInsert_length_le {α : Type} [LinearOrder α] (x : α) (l : List α) :
    (btreeInsert x l).length ≤ l.length + 1 := by
  unfold btreeInsert
  split
  · exact Nat.le_succ _
  · rw [List.orderedInsert_length]

/-- Claim C6, amended.  The recent deque settles at one entry above its
capacity: seen_solution preserves length <= all_solutions_capacity + 1
(the size-expiry loop pops from the back only while the deque size is
strictly greater than the capacity, and then one entry is pushed), and the
best set stays within best_solutions_capacity on every completed
local_search_chose_solution call. -/
theorem c6_bounded_memory (h : History γ σ) (s : ScoredSolution γ σ) :
    (h.all_solutions.length ≤ h.all_solutions_capacity + 1 →
      (h.seen_solution s).all_solutions.length ≤ h.all_solutions_capacity + 1) ∧
    (h._pop_solution_for_size.all_solutions.length =
      min h.all_solutions.length h.all_solutions_capacity) ∧
    (∀ h', h.best_solutions.length ≤ h.best_solutions_capacity →
      h.local_search_chose_solution s = some h' →
      h'.best_solutions.length ≤ h.best_solutions_capacity) := by
  refine ⟨?_, pop_solution_for_size_length h, ?_⟩
  · intro hlen
    simp only [History.seen_solution]
    have hage := pop_solution_for_age_length_le
      ({ h with iteration_count := h.iteration_count + 1 })
    split
    · next hmem =>
      exact le_trans hage hlen
    · next hmem =>
      simp only [History._add_solution, List.length_cons]
      have hsz := pop_solution_for_size_length
        ({ h with iteration_count := h.iteration_count + 1 }._pop_solution_for_age)
      refine le_trans (Nat.succ_le_succ (le_of_eq hsz)) ?_
      exact Nat.succ_le_succ (Nat.min_le_right _ _)
  · intro h' hlen hsome
    simp only [History.local_search_chose_solution] at hsome
    split at hsome
    · next hlt =>
      cases hsome
      calc (btreeInsert s h.best_solutions).length
          ≤ h.best_solutions.length + 1 := btreeInsert_length_le _ _
        _ ≤ h.best_solutions_capacity := hlt
    · next hge =>
      cases hw : h.best_solutions.getLast? with
      | none => rw [hw] at hsome; cases hsome
      | some worst =>
        simp only [hw] at hsome
        have hwmem : worst ∈ h.best_solutions := List.mem_of_mem_getLast? hw
        have hpos : 1 ≤ h.best_solutions.length :=
          List.length_pos.mpr (List.ne_nil_of_mem hwmem)
        by_cases hsle : s.score ≤ worst.score
        · rw [if_pos hsle] at hsome
          cases hsome
          calc (btreeInsert s (h.best_solutions.erase worst)).length
              ≤ (h.best_solutions.erase worst).length + 1 :=
                btreeInsert_length_le _ _
            _ = h.best_solutions.length - 1 + 1 := by
                rw [List.length_erase_of_mem hwmem]
            _ = h.best_solutions.length := by omega
            _ ≤ h.best_solutions_capacity := hlen
        · rw [if_neg hsle] at hsome
          cases hsome
          exact hlen

/-- Witness for c6_bounded_memory at a concrete capacity-1 history. -/
theorem c6_bounded_memory_witness :
    ((History.new Nat Nat 1 1 1).all_solutions.length ≤
      (History.new Nat Nat 1 1 1).all_solutions_capacity + 1) ∧
    (((History.new Nat Nat 1 1 1).seen_solution ⟨10, 1⟩).all_solutions.length ≤
      (History.new Nat Nat 1 1 1).all_solutions_capacity + 1) ∧
    ((History.new Nat Nat 1 1 1).local_search_chose_solution ⟨10, 1⟩ =
      some { History.new Nat Nat 1 1 1 with best_solutions := [⟨10, 1⟩] }) ∧
    ({ History.new Nat Nat 1 1 1 with
        best_solutions := [⟨10, 1⟩] } : History Nat Nat).best_solutions.length ≤
      (History.new Nat Nat 1 1 1).best_solutions_capacity :=
  ⟨by decide,
    (c6_bounded_memory (History.new Nat Nat 1 1 1) ⟨10, 1⟩).1 (by decide),
    by decide,
    (c6_bounded_memory (History.new Nat Nat 1 1 1) ⟨10, 1⟩).2.2
      { History.new Nat Nat 1 1 1 with best_solutions := [⟨10, 1⟩] }
      (by decide) (by decide)⟩

/-- The head (minimum) of a BTreeSet-modelled list never increases under
insertion. -/
theorem head_le_btreeInsert {α : Type} [LinearOrder α] {x b b' : α}
    {l : List α} (hb : l.head? = some b)
    (hb' : (btreeInsert x l).head? = some b') : b' ≤ b := by
  unfold btreeInsert at hb'
  split at hb'
  · rw [hb] at hb'
    cases hb'
    exact le_refl b
  · cases l with
    | nil => simp at hb
    | cons y t =>
      simp only [List.head?_cons, Option.some.injEq] at hb
      subst hb
      simp only [List.orderedInsert] at hb'
      split at hb'
      · next hxy =>
        simp only [List.head?_cons, Option.some.injEq] at hb'
        subst hb'
        exact hxy
      · simp only [List.head?_cons, Option.some.injEq] at hb'
        subst hb'
        exact le_refl _

/-- The inserted element belongs to the BTreeSet after insertion. -/
theorem mem_btreeInsert_self {α : Type} [LinearOrder α] (x : α) (l : List α) :
    x ∈ btreeInsert x l := by
  unfold btreeInsert
  split
  · assumption
  · exact (List.mem_orderedInsert _).mpr (Or.inl rfl)

/-- Membership in a BTreeSet after insertion. -/
theorem mem_btreeInsert_iff {α : Type} [LinearOrder α] {y x : α} {l : List α} :
    y ∈ btreeInsert x l ↔ y = x ∨ y ∈ l := by
  unfold btreeInsert
  split
  · next hx =>
    refine ⟨Or.inr, fun h => ?_⟩
    rcases h with rfl | h
    · exact hx
    · exact h
  · exact List.mem_orderedInsert _

/-- In a strictly sorted list, every member is at most the last element. -/
theorem sorted_le_getLast {α : Type} [LinearOrder α] :
    ∀ {l : List α}, l.Sorted (· < ·) → ∀ {x w : α}, x ∈ l →
      l.getLast? = some w → x ≤ w := by
  intro l
  induction l with
  | nil => intro _ x w hx; cases hx
  | cons y t ih =>
    intro hs x w hx hw
    rcases List.sorted_cons.mp hs with ⟨hy, ht⟩
    cases t with
    | nil =>
      simp only [List.getLast?_singleton, Option.some.injEq] at hw
      subst hw
      simp only [List.mem_singleton] at hx
      exact le_of_eq hx
    | cons z t' =>
      rw [List.getLast?_cons_cons] at hw
      rcases List.mem_cons.mp hx with rfl | hx
      · exact le_of_lt (hy w (List.mem_of_mem_getLast? hw))
      · exact ih ht hx hw

/-- Claim C7.  Monotone best set: when local_search_chose_solution
completes on a (strictly sorted, as the BTreeSet maintains) best set, the
score of get_best never increases; admission always succeeds while the set
is below capacity; and once at capacity a candidate is admitted iff its
score is at most the current worst member's score, in which case that
worst member is evicted. -/
theorem c7_monotone_best_set (h : History γ σ) (s : ScoredSolution γ σ)
    (h' : History γ σ) (hsort : h.best_solutions.Sorted (· < ·))
    (hsome : h.local_search_chose_solution s = some h') :
    (∀ b b', h.get_best = some b → h'.get_best = some b' →
      b'.score ≤ b.score) ∧
    (h.best_solutions.length < h.best_solutions_capacity →
      s ∈ h'.best_solutions) ∧
    (∀ worst, ¬(h.best_solutions.length < h.best_solutions_capacity) →
      h.best_solutions.getLast? = some worst →
      (s.score ≤ worst.score →
        s ∈ h'.best_solutions ∧ (s ≠ worst → worst ∉ h'.best_solutions)) ∧
      (¬(s.score ≤ worst.score) → h' = h ∧ s ∉ h.best_solutions)) := by
  refine ⟨?_, ?_, ?_⟩
  · intro b b' hb hb'
    simp only [History.local_search_chose_solution] at hsome
    split at hsome
    · cases hsome
      simp only [History.get_best] at hb hb'
      exact ScoredSolution.score_le_of_le (head_le_btreeInsert hb hb')
    · cases hwq : h.best_solutions.getLast? with
      | none => rw [hwq] at hsome; cases hsome
      | some worst =>
        simp only [hwq] at hsome
        by_cases hsle : s.score ≤ worst.score
        · rw [if_pos hsle] at hsome
          cases hsome
          simp only [History.get_best] at hb hb'
          cases hl : h.best_solutions with
          | nil => rw [hl] at hb; simp at hb
          | cons y t =>
            rw [hl] at hb
            simp only [List.head?_cons, Option.some.injEq] at hb
            subst hb
            cases t with
            | nil =>
              rw [hl] at hwq
              simp only [List.getLast?_singleton, Option.some.injEq] at hwq
              subst hwq
              rw [hl] at hb'
              simp only [List.erase_cons_head, btreeInsert,
                List.not_mem_nil, if_false, List.orderedInsert,
                List.head?_cons, Option.some.injEq] at hb'
              subst hb'
              exact hsle
            | cons z t' =>
              have hwmem : worst ∈ z :: t' := by
                rw [hl, List.getLast?_cons_cons] at hwq
                exact List.mem_of_mem_getLast? hwq
              have hyw : y < worst := by
                rw [hl] at hsort
                exact (List.sorted_cons.mp hsort).1 worst hwmem
              have herase : h.best_solutions.erase worst =
                  y :: (z :: t').erase worst := by
                rw [hl]
                exact List.erase_cons_tail
                  (by simp only [beq_iff_eq]; exact ne_of_lt hyw)
              rw [herase] at hb'
              exact ScoredSolution.score_le_of_le
                (head_le_btreeInsert (List.head?_cons) hb')
        · rw [if_neg hsle] at hsome
          cases hsome
          rw [hb] at hb'
          cases hb'
          exact le_refl _
  · intro hlt
    simp only [History.local_search_chose_solution] at hsome
    rw [if_pos hlt] at hsome
    cases hsome
    exact mem_btreeInsert_self s _
  · intro worst hge hwq
    simp only [History.local_search_chose_solution] at hsome
    rw [if_neg hge] at hsome
    simp only [hwq] at hsome
    constructor
    · intro hsle
      rw [if_pos hsle] at hsome
      cases hsome
      refine ⟨mem_btreeInsert_self s _, ?_⟩
      intro hne hmem
      rcases mem_btreeInsert_iff.mp hmem with h1 | h2
      · exact hne h1.symm
      · exact (List.Nodup.not_mem_erase hsort.nodup) h2
    · intro hnle
      rw [if_neg hnle] at hsome
      cases hsome
      refine ⟨rfl, ?_⟩
      intro hmem
      exact hnle (ScoredSolution.score_le_of_le
        (sorted_le_getLast hsort hmem hwq))

/-- Witness for c7_monotone_best_set: histC (capacity-1 best set holding
score 5) admits the candidate of score 3, evicting the worst, and
get_best's score drops from 5 to 3. -/
theorem c7_monotone_best_set_witness :
    (histC.best_solutions.Sorted (· < ·)) ∧
    (histC.local_search_chose_solution ⟨3, 9⟩ = some histC') ∧
    (histC.get_best = some ⟨5, 0⟩) ∧ (histC'.get_best = some ⟨3, 9⟩) ∧
    (ScoredSolution.score (⟨3, 9⟩ : ScoredSolution Nat Nat) ≤
      ScoredSolution.score (⟨5, 0⟩ : ScoredSolution Nat Nat)) :=
  ⟨by simp [histC], by decide, by decide, by decide,
    (c7_monotone_best_set histC ⟨3, 9⟩ histC' (by simp [histC])
      (by decide)).1 ⟨5, 0⟩ ⟨3, 9⟩ (by decide) (by decide)⟩

/-- Weighted selection succeeds whenever the drawn value is below the total
weight, and returns one of the listed items. -/
theorem pickByWeight_total {α : Type} :
    ∀ (l : List (α × Nat)) (u : Nat),
      u < (l.map (fun x => x.2)).sum →
      ∃ x, pickByWeight l u = some x ∧ x ∈ l.map (fun x => x.1) := by
  intro l
  induction l with
  | nil => intro u hu; simp at hu
  | cons a rest ih =>
    intro u hu
    unfold pickByWeight
    by_cases huw : u < a.2
    · exact ⟨a.1, by rw [if_pos huw], by simp⟩
    · rw [if_neg huw]
      simp only [List.map_cons, List.sum_cons] at hu
      obtain ⟨x, hpick, hmem⟩ := ih (u - a.2) (by omega)
      exact ⟨x, hpick, by simp [hmem]⟩

/-- chooseWeighted succeeds whenever the total weight is positive, and
returns one of the listed items. -/
theorem chooseWeighted_total {α : Type} (l : List (α × Nat)) (rng : Rng)
    (hpos : 0 < (l.map (fun x => x.2)).sum) :
    ∃ x rng', chooseWeighted l rng = (some x, rng') ∧
      x ∈ l.map (fun x => x.1) := by
  unfold chooseWeighted
  rw [if_neg (Nat.pos_iff_ne_zero.mp hpos)]
  obtain ⟨x, hpick, hmem⟩ :=
    pickByWeight_total l ((rng.draw ((l.map (fun x => x.2)).sum)).1)
      (Nat.mod_lt _ hpos)
  exact ⟨x, _, by simp only []; rw [hpick], hmem⟩

/-- AcceptanceCriterion::choose always succeeds and returns the existing
minimum, the new minimum, or a best-set member (shared workhorse). -/
theorem choose_total (e n : ScoredSolution γ σ)
    (hist : History γ σ) (rng : Rng) :
    ∃ x rng', AcceptanceCriterion.choose e n hist rng = (some x, rng') ∧
      (x = e ∨ x = n ∨ x ∈ hist.best_solutions) ∧
      (hist.best_solutions = [] → (x = e ∨ x = n)) := by
  unfold AcceptanceCriterion.choose History.get_random_best_solution
  by_cases hemp : hist.best_solutions.isEmpty
  · rw [if_pos hemp]
    obtain ⟨x, rng', hch, hmem⟩ :=
      chooseWeighted_total [(e, 1), (n, 5)] rng (by simp)
    simp only [List.map_cons, List.map_nil, List.mem_cons,
      List.not_mem_nil, or_false] at hmem
    exact ⟨x, rng', hch, Or.elim hmem (fun h => Or.inl h)
      (fun h => Or.inr (Or.inl h)), fun _ => hmem⟩
  · rw [if_neg hemp]
    cases hget : hist.best_solutions.get?
        ((rng.draw hist.best_solutions.length).1) with
    | none =>
      exfalso
      rw [List.get?_eq_none] at hget
      have hlen : 0 < hist.best_solutions.length :=
        List.length_pos.mpr (by simpa [List.isEmpty_iff] using hemp)
      have := Nat.mod_lt (rng.seq rng.idx) hlen
      simp only [Rng.draw] at hget
      omega
    | some rb =>
      simp only [hget]
      have hrbmem : rb ∈ hist.best_solutions := List.get?_mem hget
      obtain ⟨x, rng', hch, hmem⟩ :=
        chooseWeighted_total [(e, 1), (n, 5), (rb, 1)] ((rng.draw
          hist.best_solutions.length).2) (by simp)
      simp only [List.map_cons, List.map_nil, List.mem_cons,
        List.not_mem_nil, or_false] at hmem
      refine ⟨x, rng', hch, ?_, ?_⟩
      · rcases hmem with rfl | rfl | rfl
        · exact Or.inl rfl
        · exact Or.inr (Or.inl rfl)
        · exact Or.inr (Or.inr hrbmem)
      · intro hnil
        rw [hnil] at hemp
        simp at hemp

/-- Claim C8.  AcceptanceCriterion::choose always succeeds and returns
either the existing local minimum, the new local minimum, or a member of
the history's best set; when the best set is empty the result is existing
or new (menu weights 1 and 5), and when nonempty the menu also carries one
uniformly drawn best member (weights 1, 5, 1). -/
theorem c8_acceptance_choose (e n : ScoredSolution γ σ)
    (hist : History γ σ) (rng : Rng) :
    ∃ x rng', AcceptanceCriterion.choose e n hist rng = (some x, rng') ∧
      (x = e ∨ x = n ∨ x ∈ hist.best_solutions) ∧
      (hist.best_solutions = [] → (x = e ∨ x = n)) :=
  choose_total e n hist rng

/-- Witness for c8_acceptance_choose at concrete inputs (it has no
hypothesis binders; the inner implication is instantiated through the
theorem). -/
theorem c8_acceptance_choose_witness :
    ∃ x rng', AcceptanceCriterion.choose (⟨1, 1⟩ : ScoredSolution Nat Nat)
        ⟨2, 2⟩ histC rngZero = (some x, rng') ∧
      (x = ⟨1, 1⟩ ∨ x = ⟨2, 2⟩ ∨ x ∈ histC.best_solutions) ∧
      (histC.best_solutions = [] → (x = ⟨1, 1⟩ ∨ x = ⟨2, 2⟩)) :=
  c8_acceptance_choose ⟨1, 1⟩ ⟨2, 2⟩ histC rngZero

/-- Claim C10.  The constructor scores the initial solution into current
but inserts nothing into the History: with an initially empty best set,
get_best_solution() before any round is the unwrap of None (a panic); and
with best_solutions_capacity >= 1, the first execute_round completes and
makes get_best_solution() succeed. -/
theorem c10_get_best_solution_first_round (host : Host γ σ)
    (history : History γ σ) (ls : LocalSearchState γ σ)
    (lsw lsm maxit manif : Nat) (rng : Rng)
    (hemp : history.best_solutions = [])
    (hcap : 1 ≤ history.best_solutions_capacity) :
    IteratedLocalSearch.get_best_solution
      (IteratedLocalSearch.new host history ls lsw lsm maxit manif rng) = none ∧
    ∃ st' b, IteratedLocalSearch.execute_round host
        (IteratedLocalSearch.new host history ls lsw lsm maxit manif rng) =
          some st' ∧
      IteratedLocalSearch.get_best_solution st' = some b := by
  have hchose : ∀ z : ScoredSolution γ σ,
      history.local_search_chose_solution z =
        some { history with best_solutions := [z] } := by
    intro z
    unfold History.local_search_chose_solution
    rw [hemp]
    rw [if_pos (by simpa using hcap)]
    simp [btreeInsert, List.orderedInsert]
  constructor
  · simp [IteratedLocalSearch.get_best_solution, IteratedLocalSearch.new,
      History.get_best, hemp]
  · simp only [IteratedLocalSearch.execute_round, IteratedLocalSearch.new,
      History.get_best, hemp, List.head?_nil]
    rw [if_neg (fun hc => Bool.noConfusion hc)]
    rw [if_neg (by decide : ¬(0 < 0 + 1 ∧ (0 + 1) % 50 = 0))]
    simp only [hchose]
    set cur := host.get_scored_solution
      (host.generate_initial_solution rng).1 with hcur
    set pp := host.propose_new_starting_solution cur history
      (host.generate_initial_solution rng).2 with hpp
    set q := LocalSearch.execute host lsw lsm ls pp.1 manif with hq
    obtain ⟨x, rng', hch, hmem⟩ := choose_total cur q.1
      { history with best_solutions := [q.1] } pp.2
    rw [hch]
    refine ⟨_, q.1, rfl, ?_⟩
    simp [IteratedLocalSearch.get_best_solution, History.get_best]

/-- Witness for c10_get_best_solution_first_round at concrete inputs. -/
theorem c10_first_round_witness :
    (History.new Nat Nat 16 100 100).best_solutions = [] ∧
    1 ≤ (History.new Nat Nat 16 100 100).best_solutions_capacity ∧
    (IteratedLocalSearch.get_best_solution
      (IteratedLocalSearch.new hostA (History.new Nat Nat 16 100 100)
        ⟨histA, rngZero⟩ 10 10 10 2 rngZero) = none ∧
    ∃ st' b, IteratedLocalSearch.execute_round hostA
        (IteratedLocalSearch.new hostA (History.new Nat Nat 16 100 100)
          ⟨histA, rngZero⟩ 10 10 10 2 rngZero) = some st' ∧
      IteratedLocalSearch.get_best_solution st' = some b) :=
  ⟨rfl, by decide,
    c10_get_best_solution_first_round hostA (History.new Nat Nat 16 100 100)
      ⟨histA, rngZero⟩ 10 10 10 2 rngZero rfl (by decide)⟩

/-- Tabu membership only depends on the contents of the lookup set, not on
its internal order. -/
theorem is_solution_tabu_congr {h₁ h₂ : History γ σ} (he : History.Equiv h₁ h₂)
    (s : σ) : h₁.is_solution_tabu s = h₂.is_solution_tabu s := by
  simp only [History.is_solution_tabu]
  exact decide_eq_decide.mpr he.2.2.2.2.1.mem_iff

/-- The age-expiry loop commutes with permutation of the lookup set. -/
theorem popAgeAux_congr (cnt expiry : Nat) :
    ∀ (l : List (ScoredSolutionAndIterationAdded γ σ)) (lk₁ lk₂ : List σ),
      lk₁.Perm lk₂ →
      (History.popAgeAux cnt expiry l lk₁).1 =
        (History.popAgeAux cnt expiry l lk₂).1 ∧
      (History.popAgeAux cnt expiry l lk₁).2.Perm
        (History.popAgeAux cnt expiry l lk₂).2 := by
  intro l
  induction l with
  | nil =>
    intro lk₁ lk₂ hp
    exact ⟨rfl, hp⟩
  | cons e rest ih =>
    intro lk₁ lk₂ hp
    simp only [History.popAgeAux]
    split
    · exact ih _ _ (hp.erase _)
    · exact ⟨rfl, hp⟩

/-- The size-expiry loop commutes with permutation of the lookup set. -/
theorem popSizeAux_congr (cap : Nat) :
    ∀ (l : List (ScoredSolutionAndIterationAdded γ σ)) (lk₁ lk₂ : List σ),
      lk₁.Perm lk₂ →
      (History.popSizeAux cap l lk₁).1 = (History.popSizeAux cap l lk₂).1 ∧
      (History.popSizeAux cap l lk₁).2.Perm (History.popSizeAux cap l lk₂).2 := by
  intro l
  induction l with
  | nil =>
    intro lk₁ lk₂ hp
    exact ⟨rfl, hp⟩
  | cons e rest ih =>
    intro lk₁ lk₂ hp
    simp only [History.popSizeAux]
    split
    · exact ih _ _ (hp.erase _)
    · exact ⟨rfl, hp⟩

/-- _pop_solution_for_age preserves history equivalence. -/
theorem pop_age_equiv {h₁ h₂ : History γ σ} (he : History.Equiv h₁ h₂) :
    History.Equiv h₁._pop_solution_for_age h₂._pop_solution_for_age := by
  obtain ⟨e1, e2, e3, e4, hp, e6, e7⟩ := he
  have hq := popAgeAux_congr h₂.iteration_count h₂.all_solution_iteration_expiry
    h₂.all_solutions.reverse h₁.all_solutions_lookup h₂.all_solutions_lookup hp
  simp only [History._pop_solution_for_age]
  refine ⟨e1, e2, ?_, e4, ?_, e6, e7⟩
  · rw [e3, e6, e7, hq.1]
  · rw [e3, e6, e7]
    exact hq.2

/-- _pop_solution_for_size preserves history equivalence. -/
theorem pop_size_equiv {h₁ h₂ : History γ σ} (he : History.Equiv h₁ h₂) :
    History.Equiv h₁._pop_solution_for_size h₂._pop_solution_for_size := by
  obtain ⟨e1, e2, e3, e4, hp, e6, e7⟩ := he
  have hq := popSizeAux_congr h₂.all_solutions_capacity h₂.all_solutions.reverse
    h₁.all_solutions_lookup h₂.all_solutions_lookup hp
  simp only [History._pop_solution_for_size]
  refine ⟨e1, e2, ?_, e4, ?_, e6, e7⟩
  · rw [e3, e4, hq.1]
  · rw [e3, e4]
    exact hq.2

/-- _add_solution preserves history equivalence. -/
theorem add_solution_equiv {h₁ h₂ : History γ σ} (s : ScoredSolution γ σ)
    (he : History.Equiv h₁ h₂) :
    History.Equiv (h₁._add_solution s) (h₂._add_solution s) := by
  have hps := pop_size_equiv he
  obtain ⟨e1, e2, e3, e4, hp, e6, e7⟩ := hps
  simp only [History._add_solution]
  refine ⟨e1, e2, ?_, e4, ?_, e6, e7⟩
  · rw [e3, e7]
  · exact hp.insert _

/-- seen_solution preserves history equivalence: the tabu update is
insensitive to the internal order of the lookup set. -/
theorem seen_solution_equiv {h₁ h₂ : History γ σ} (s : ScoredSolution γ σ)
    (he : History.Equiv h₁ h₂) :
    History.Equiv (h₁.seen_solution s) (h₂.seen_solution s) := by
  have hbump : History.Equiv
      { h₁ with iteration_count := h₁.iteration_count + 1 }
      { h₂ with iteration_count := h₂.iteration_count + 1 } := by
    obtain ⟨e1, e2, e3, e4, hp, e6, e7⟩ := he
    exact ⟨e1, e2, e3, e4, hp, e6, by rw [e7]⟩
  have hage := pop_age_equiv hbump
  simp only [History.seen_solution]
  by_cases hmem : s.solution ∈
      ({ h₁ with iteration_count := h₁.iteration_count + 1
        }._pop_solution_for_age).all_solutions_lookup
  · have hmem' := hage.2.2.2.2.1.mem_iff.mp hmem
    rw [if_pos hmem, if_pos hmem']
    exact hage
  · have hmem' := fun hc => hmem (hage.2.2.2.2.1.mem_iff.mpr hc)
    rw [if_neg hmem, if_neg hmem']
    exact add_solution_equiv s hage

/-- local_search_chose_solution only consults the best set (shared between
equivalent histories): both sides panic together or produce equivalent
histories. -/
theorem chose_solution_equiv {h₁ h₂ : History γ σ} (s : ScoredSolution γ σ)
    (he : History.Equiv h₁ h₂) :
    (h₁.local_search_chose_solution s = none ∧
      h₂.local_search_chose_solution s = none) ∨
    (∃ a b, h₁.local_search_chose_solution s = some a ∧
      h₂.local_search_chose_solution s = some b ∧ History.Equiv a b) := by
  obtain ⟨e1, e2, e3, e4, hp, e6, e7⟩ := he
  simp only [History.local_search_chose_solution]
  rw [e1, e2]
  by_cases hlt : h₂.best_solutions.length < h₂.best_solutions_capacity
  · simp only [if_pos hlt]
    exact Or.inr ⟨_, _, rfl, rfl, rfl, rfl, e3, e4, hp, e6, e7⟩
  · simp only [if_neg hlt]
    cases hw : h₂.best_solutions.getLast? with
    | none => exact Or.inl ⟨rfl, rfl⟩
    | some worst =>
      by_cases hsle : s.score ≤ worst.score
      · simp only [if_pos hsle]
        exact Or.inr ⟨_, _, rfl, rfl, rfl, rfl, e3, e4, hp, e6, e7⟩
      · simp only [if_neg hsle]
        exact Or.inr ⟨_, _, rfl, rfl, e1, e2, e3, e4, hp, e6, e7⟩

/-- get_best only reads the (shared) best set. -/
theorem get_best_congr {h₁ h₂ : History γ σ} (he : History.Equiv h₁ h₂) :
    h₁.get_best = h₂.get_best := by
  simp only [History.get_best, he.1]

/-- get_random_best_solution only reads the (shared) best set. -/
theorem get_random_best_solution_congr {h₁ h₂ : History γ σ}
    (he : History.Equiv h₁ h₂) (rng : Rng) :
    h₁.get_random_best_solution rng = h₂.get_random_best_solution rng := by
  simp only [History.get_random_best_solution, he.1]

/-- AcceptanceCriterion::choose is insensitive to the lookup order. -/
theorem acceptance_choose_congr (e n : ScoredSolution γ σ)
    {h₁ h₂ : History γ σ} (he : History.Equiv h₁ h₂) (rng : Rng) :
    AcceptanceCriterion.choose e n h₁ rng =
      AcceptanceCriterion.choose e n h₂ rng := by
  simp only [AcceptanceCriterion.choose, get_random_best_solution_congr he rng]

/-- The scan of the neighborhood (tabu filter included) is insensitive to
the lookup order. -/
theorem lsNeighborhood_congr (host : Host γ σ) (w : Nat)
    {h₁ h₂ : History γ σ} (he : History.Equiv h₁ h₂) (cur : σ) (rng : Rng) :
    lsNeighborhood host w h₁ cur rng = lsNeighborhood host w h₂ cur rng := by
  simp only [lsNeighborhood]
  have hf : ∀ l : List σ,
      l.filter (fun s => !h₁.is_solution_tabu s) =
        l.filter (fun s => !h₂.is_solution_tabu s) := fun l =>
    List.filter_congr (fun a _ => by rw [is_solution_tabu_congr he])
  rw [hf]

/-- The descent loop of LocalSearch::execute produces the same scored
solution, the same RNG state, and equivalent histories when started from
equivalent histories. -/
theorem lsLoop_equiv (host : Host γ σ) (w allow : Nat) :
    ∀ (fuel : Nat) (cur best : ScoredSolution γ σ) (ni : Nat)
      (hh₁ hh₂ : History γ σ) (r : Rng), History.Equiv hh₁ hh₂ →
      (lsLoop host w allow fuel cur best ni ⟨hh₁, r⟩).1 =
        (lsLoop host w allow fuel cur best ni ⟨hh₂, r⟩).1 ∧
      History.Equiv (lsLoop host w allow fuel cur best ni ⟨hh₁, r⟩).2.history
        (lsLoop host w allow fuel cur best ni ⟨hh₂, r⟩).2.history ∧
      (lsLoop host w allow fuel cur best ni ⟨hh₁, r⟩).2.rng =
        (lsLoop host w allow fuel cur best ni ⟨hh₂, r⟩).2.rng := by
  intro fuel
  induction fuel with
  | zero =>
    intro cur best ni hh₁ hh₂ r he
    exact ⟨rfl, he, rfl⟩
  | succ f ih =>
    intro cur best ni hh₁ hh₂ r he
    simp only [lsLoop]
    have hseen := seen_solution_equiv cur he
    by_cases hb : host.is_best cur.score
    · rw [if_pos hb, if_pos hb]
      exact ⟨rfl, hseen, rfl⟩
    · rw [if_neg hb, if_neg hb]
      rw [lsNeighborhood_congr host w hseen cur.solution r]
      cases hq : (lsNeighborhood host w (hh₂.seen_solution cur)
          cur.solution r).1.head? with
      | none => exact ⟨rfl, hseen, rfl⟩
      | some nb =>
        dsimp only
        by_cases hlt : nb.score < cur.score
        · rw [if_pos hlt, if_pos hlt]
          exact ih nb nb 0 _ _ _ hseen
        · rw [if_neg hlt, if_neg hlt]
          by_cases hni : allow ≤ ni + 1
          · rw [if_pos hni, if_pos hni]
            exact ⟨rfl, hseen, rfl⟩
          · rw [if_neg hni, if_neg hni]
            exact ih nb best (ni + 1) _ _ _ hseen

/-- LocalSearch::execute is insensitive to the lookup order of its
history's tabu hash set: same result, same RNG, equivalent histories. -/
theorem ls_execute_equiv (host : Host γ σ) (w mi : Nat)
    (ls₁ ls₂ : LocalSearchState γ σ) (start : σ) (allow : Nat)
    (heh : History.Equiv ls₁.history ls₂.history) (her : ls₁.rng = ls₂.rng) :
    (LocalSearch.execute host w mi ls₁ start allow).1 =
      (LocalSearch.execute host w mi ls₂ start allow).1 ∧
    History.Equiv (LocalSearch.execute host w mi ls₁ start allow).2.history
      (LocalSearch.execute host w mi ls₂ start allow).2.history ∧
    (LocalSearch.execute host w mi ls₁ start allow).2.rng =
      (LocalSearch.execute host w mi ls₂ start allow).2.rng := by
  obtain ⟨h₁, r₁⟩ := ls₁
  obtain ⟨h₂, r₂⟩ := ls₂
  cases her
  exact lsLoop_equiv host w allow mi _ _ 0 h₁ h₂ r₁ heh

/-- execute_round is insensitive to the internal order of the two tabu
lookup hash sets: from equivalent states (any host whose perturbation only
sees the History through its public API), both rounds panic together or
produce equivalent states. -/
theorem execute_round_equiv (host : Host γ σ)
    (hhost : host.PerturbationRespectsEquiv) {st₁ st₂ : ILSState γ σ}
    (he : ILSState.Equiv st₁ st₂) :
    (IteratedLocalSearch.execute_round host st₁ = none ∧
      IteratedLocalSearch.execute_round host st₂ = none) ∨
    (∃ s₁ s₂, IteratedLocalSearch.execute_round host st₁ = some s₁ ∧
      IteratedLocalSearch.execute_round host st₂ = some s₂ ∧
      ILSState.Equiv s₁ s₂) := by
  obtain ⟨it₁, mi₁, ma₁, cu₁, hh₁, ⟨lh₁, lr₁⟩, w₁, lm₁, r₁⟩ := st₁
  obtain ⟨it₂, mi₂, ma₂, cu₂, hh₂, ⟨lh₂, lr₂⟩, w₂, lm₂, r₂⟩ := st₂
  obtain ⟨e1, e2, e3, e4, ehist, elsh, elsr, ew, elm, er⟩ := he
  subst e1
  subst e2
  subst e3
  subst e4
  subst elsr
  subst ew
  subst elm
  subst er
  simp only [IteratedLocalSearch.execute_round]
  rw [get_best_congr ehist]
  by_cases hE : (match hh₂.get_best with
    | some best => host.is_best best.score
    | none => false) = true
  · rw [if_pos hE, if_pos hE]
    exact Or.inr ⟨_, _, rfl, rfl, rfl, rfl, rfl, rfl, ehist, elsh, rfl, rfl,
      rfl, rfl⟩
  · rw [if_neg hE, if_neg hE]
    by_cases h50 : 0 < it₁ + 1 ∧ (it₁ + 1) % 50 = 0
    · rw [if_pos h50, if_pos h50]
      dsimp only
      rw [hhost _ hh₁ hh₂ _ ehist]
      obtain ⟨hq1, hq2, hq3⟩ := ls_execute_equiv host w₁ lm₁
        ⟨lh₁, lr₁⟩ ⟨lh₂, lr₁⟩
        (host.propose_new_starting_solution
          (host.get_scored_solution (host.generate_initial_solution r₁).1) hh₂
          (host.generate_initial_solution r₁).2).1 ma₁ elsh rfl
      rw [hq1]
      rcases chose_solution_equiv _ ehist with ⟨hn1, hn2⟩ | ⟨a, b, ha, hb, hab⟩
      · rw [hn1, hn2]
        exact Or.inl ⟨rfl, rfl⟩
      · rw [ha, hb]
        dsimp only
        rw [acceptance_choose_congr _ _ hab]
        obtain ⟨x, rng', hch, -, -⟩ := choose_total _ _ b
          (host.propose_new_starting_solution
            (host.get_scored_solution (host.generate_initial_solution r₁).1) hh₂
            (host.generate_initial_solution r₁).2).2
        rw [hch]
        exact Or.inr ⟨_, _, rfl, rfl, rfl, rfl, rfl, rfl, hab, hq2, hq3, rfl,
          rfl, rfl⟩
    · rw [if_neg h50, if_neg h50]
      dsimp only
      rw [hhost _ hh₁ hh₂ _ ehist]
      obtain ⟨hq1, hq2, hq3⟩ := ls_execute_equiv host w₁ lm₁
        ⟨lh₁, lr₁⟩ ⟨lh₂, lr₁⟩
        (host.propose_new_starting_solution cu₁ hh₂ r₁).1 ma₁ elsh rfl
      rw [hq1]
      rcases chose_solution_equiv _ ehist with ⟨hn1, hn2⟩ | ⟨a, b, ha, hb, hab⟩
      · rw [hn1, hn2]
        exact Or.inl ⟨rfl, rfl⟩
      · rw [ha, hb]
        dsimp only
        rw [acceptance_choose_congr _ _ hab]
        obtain ⟨x, rng', hch, -, -⟩ := choose_total _ _ b
          (host.propose_new_starting_solution cu₁ hh₂ r₁).2
        rw [hch]
        exact Or.inr ⟨_, _, rfl, rfl, rfl, rfl, rfl, rfl, hab, hq2, hq3, rfl,
          rfl, rfl⟩

/-- is_finished only reads the (shared) iteration counters. -/
theorem is_finished_congr {st₁ st₂ : ILSState γ σ} (he : ILSState.Equiv st₁ st₂) :
    IteratedLocalSearch.is_finished st₁ = IteratedLocalSearch.is_finished st₂ := by
  simp only [IteratedLocalSearch.is_finished, he.1, he.2.1]

/-- The driver loop preserves state equivalence round by round. -/
theorem drive_equiv (host : Host γ σ) (hhost : host.PerturbationRespectsEquiv) :
    ∀ (fuel : Nat) {st₁ st₂ : ILSState γ σ}, ILSState.Equiv st₁ st₂ →
      (drive host fuel st₁ = none ∧ drive host fuel st₂ = none) ∨
      (∃ s₁ s₂, drive host fuel st₁ = some s₁ ∧ drive host fuel st₂ = some s₂ ∧
        ILSState.Equiv s₁ s₂) := by
  intro fuel
  induction fuel with
  | zero =>
    intro st₁ st₂ he
    exact Or.inr ⟨st₁, st₂, rfl, rfl, he⟩
  | succ f ih =>
    intro st₁ st₂ he
    simp only [drive]
    rw [is_finished_congr he]
    by_cases hf : IteratedLocalSearch.is_finished st₂ = true
    · rw [if_pos hf, if_pos hf]
      exact Or.inr ⟨st₁, st₂, rfl, rfl, he⟩
    · rw [if_neg hf, if_neg hf]
      rcases execute_round_equiv host hhost he with ⟨h1, h2⟩ | ⟨s₁, s₂, h1, h2, he'⟩
      · rw [h1, h2]
        exact Or.inl ⟨rfl, rfl⟩
      · rw [h1, h2]
        exact ih he'

/-- Claim C9.  Determinism up to hash-container layout: for every host
whose perturbation observes the History only through its public API, two
driver runs from equivalent states (equal in every field, with the tabu
hash sets holding the same elements in any internal order) either both
panic or both complete with equivalent states, equal get_best_solution()
outputs, and equal current solutions.  In particular two runs with the
same seed and identical inputs produce identical results: membership
queries alone drive control flow, never hash iteration order. -/
theorem c9_determinism (host : Host γ σ) (fuel : Nat) (st₁ st₂ : ILSState γ σ)
    (hhost : host.PerturbationRespectsEquiv) (he : ILSState.Equiv st₁ st₂) :
    (drive host fuel st₁ = none ∧ drive host fuel st₂ = none) ∨
    (∃ s₁ s₂, drive host fuel st₁ = some s₁ ∧ drive host fuel st₂ = some s₂ ∧
      ILSState.Equiv s₁ s₂ ∧
      IteratedLocalSearch.get_best_solution s₁ =
        IteratedLocalSearch.get_best_solution s₂ ∧
      s₁.current = s₂.current) := by
  rcases drive_equiv host hhost fuel he with ⟨h1, h2⟩ | ⟨s₁, s₂, h1, h2, he'⟩
  · exact Or.inl ⟨h1, h2⟩
  · refine Or.inr ⟨s₁, s₂, h1, h2, he', ?_, he'.2.2.2.1⟩
    simp only [IteratedLocalSearch.get_best_solution]
    exact get_best_congr he'.2.2.2.2.1

/-- Witness for c9_determinism: two states identical except that the tabu
lookup lists are the permutations [1, 2] and [2, 1]. -/
theorem c9_determinism_witness :
    Host.PerturbationRespectsEquiv hostB ∧
    ILSState.Equiv (stP [1, 2]) (stP [2, 1]) ∧
    ((drive hostB 3 (stP [1, 2]) = none ∧ drive hostB 3 (stP [2, 1]) = none) ∨
    (∃ s₁ s₂, drive hostB 3 (stP [1, 2]) = some s₁ ∧
      drive hostB 3 (stP [2, 1]) = some s₂ ∧ ILSState.Equiv s₁ s₂ ∧
      IteratedLocalSearch.get_best_solution s₁ =
        IteratedLocalSearch.get_best_solution s₂ ∧
      s₁.current = s₂.current)) :=
  ⟨fun _ _ _ _ _ => rfl,
    ⟨rfl, rfl, rfl, rfl,
      ⟨rfl, rfl, rfl, rfl, List.Perm.refl _, rfl, rfl⟩,
      ⟨rfl, rfl, rfl, rfl, by decide, rfl, rfl⟩, rfl, rfl, rfl, rfl⟩,
    c9_determinism hostB 3 (stP [1, 2]) (stP [2, 1])
      (fun _ _ _ _ _ => rfl)
      ⟨rfl, rfl, rfl, rfl,
        ⟨rfl, rfl, rfl, rfl, List.Perm.refl _, rfl, rfl⟩,
        ⟨rfl, rfl, rfl, rfl, by decide, rfl, rfl⟩, rfl, rfl, rfl, rfl⟩⟩

end Theorems

end LocalSearchModel
